import Mathlib

/-!
# RGF-PDF-APP: ingestion pipeline

A shallow embedding of the PDF ingestion pipeline:

* `server/src/controllers/pdf.controllers.js` : `extractTextFromPDF`, the `queue.add` options
* `server/src/worker.js` : the processor of the `file-upload-queue` worker
* `client/app/components/file-upload.tsx` : the checks of `handleFiles`

JavaScript strings are sequences of UTF-16 code units, modelled as `List Nat`.
-/

namespace RgfPdf

/-! ## Strings -/

/-- A JavaScript string, as the sequence of its UTF-16 code units. -/
abbrev JSString := List Nat

/-- The code unit of the form feed, written "\f" in the source. -/
def formFeed : Nat := 12

/-- The string " " used by the worker to join the pages. -/
def spaceSep : JSString := [32]

/-- The code units stripped by `String.prototype.trim`: the ECMAScript WhiteSpace
and LineTerminator productions (TAB, LF, VT, FF, CR, SP, NBSP, the Unicode space
separators, LS, PS and the byte order mark). -/
def isTrimChar (c : Nat) : Bool :=
  c == 9 || c == 10 || c == 11 || c == 12 || c == 13 || c == 32 || c == 0xA0 ||
  c == 0x1680 || (0x2000 ≤ c && c ≤ 0x200A) || c == 0x2028 || c == 0x2029 ||
  c == 0x202F || c == 0x205F || c == 0x3000 || c == 0xFEFF

/-- Removal of the leading white space. -/
def trimStart (s : JSString) : JSString :=
  s.dropWhile isTrimChar

/-- Removal of the trailing white space. -/
def trimEnd (s : JSString) : JSString :=
  (s.reverse.dropWhile isTrimChar).reverse

/-- The method `String.prototype.trim`. -/
def trim (s : JSString) : JSString :=
  trimEnd (trimStart s)

/-- The scan behind `split`: `cur` holds, reversed, the code units read since the
last separator. -/
def splitAux (sep : Nat) : JSString → JSString → List JSString
  | [], cur => [cur.reverse]
  | c :: cs, cur =>
    if c = sep then cur.reverse :: splitAux sep cs [] else splitAux sep cs (c :: cur)

/-- The method `String.prototype.split` for a separator of one code unit: the
pieces between consecutive occurrences of the separator (the empty string gives
one empty piece). -/
def split (sep : Nat) (s : JSString) : List JSString :=
  splitAux sep s []

/-- The method `Array.prototype.join` on an array of strings. -/
def join (sep : JSString) : List JSString → JSString
  | [] => []
  | [p] => p
  | p :: q :: ps => p ++ sep ++ join sep (q :: ps)

/-! ## Thrown values -/

/-- A value raised by `throw` or by a rejected promise. -/
inductive Thrown where
  /-- An `ApiError` built by this code base. -/
  | apiError (statusCode : Nat) (message : String)
  /-- Any other object, with the text its `message` property prints as. -/
  | error (message : String)
  /-- The value `undefined`, which has no properties. -/
  | undefined
  /-- The value `null`, which has no properties. -/
  | null
  deriving DecidableEq, Repr

/-- Evaluation of `error.message`: reading a property of `undefined` or `null`
raises a `TypeError`. -/
def Thrown.readMessage : Thrown → Except Thrown String
  | .apiError _ m => .ok m
  | .error m => .ok m
  | .undefined => .error (.error "Cannot read properties of undefined (reading 'message')")
  | .null => .error (.error "Cannot read properties of null (reading 'message')")

/-! ## Text extraction (`pdf.controllers.js`) -/

/-- The page list of `extractTextFromPDF`:
`data.text.split("\f").filter((page) => page.trim().length > 0)`. -/
def extractPages (text : JSString) : List JSString :=
  (split formFeed text).filter (fun page => decide ((trim page).length > 0))

/-- The function `extractTextFromPDF`; `parsed` is the outcome of downloading and
parsing the document (`axios.get` then `pdfParse`), either `data.text` or the
value thrown.  Everything thrown in the `try` block is replaced by an `ApiError`
with status 500. -/
def extractTextFromPDF (parsed : Except Thrown JSString) : Except Thrown (List JSString) :=
  match parsed with
  | .ok text => .ok (extractPages text)
  | .error err =>
    match err.readMessage with
    | .ok _ => .error (.apiError 500 "Failed to extract text from PDF")
    | .error typeError => .error typeError

/-! ## The worker (`worker.js`) -/

/-- The value of `job.data.pdftext` as the processor tells its cases apart. -/
inductive PdfText where
  /-- A falsy value (`undefined`, `null`, the empty string, ...): `!pdftext` holds. -/
  | falsy
  /-- An array of strings; an array is truthy, the empty one included. -/
  | pages (ps : List JSString)
  /-- A truthy value without a `join` method (a non-empty string, a number, ...). -/
  | noJoin
  deriving DecidableEq, Repr

/-- The fields of `job.data` read by the processor.  `cloudinaryUrl` is `none`
when the field is `undefined` or `null`. -/
structure JobData where
  cloudinaryUrl : Option JSString
  pdftext : PdfText
  deriving DecidableEq, Repr

/-- The `metadata` object of a document. -/
structure Metadata where
  source : JSString
  deriving DecidableEq, Repr

/-- An element of `docs`. -/
structure Document where
  pageContent : JSString
  metadata : Metadata
  deriving DecidableEq, Repr

/-- The object built by `new CohereEmbeddings({ apiKey, model })`. -/
structure Embeddings where
  apiKey : Option String
  model : String
  deriving DecidableEq, Repr

/-- The arguments of one call of `QdrantVectorStore.fromDocuments`. -/
structure StoreCall where
  docs : List Document
  embeddings : Embeddings
  url : String
  collectionName : String
  deriving DecidableEq, Repr

/-- What the worker does not control: the environment variable `COHERE_API_KEY`,
the outcome of the constructor `new CohereEmbeddings(fields)` (`.ok` when the
client is built, `.error message` when the constructor throws an `Error` with
that message, as the library does for a missing API key), and the outcome of
`QdrantVectorStore.fromDocuments`, which computes the embeddings and writes them
to the vector store (`.ok` when the promise resolves, `.error` with the
rejection value otherwise). -/
structure Env where
  cohereApiKey : Option String
  newCohereEmbeddings : Embeddings → Except String Unit
  fromDocuments : StoreCall → Except Thrown Unit

/-- The lines written through `logger`. -/
inductive LogEvent where
  /-- The info line "Full text length after extraction: n". -/
  | fullTextLength (n : Nat)
  /-- The info line "Document added to vector store." -/
  | documentAdded
  /-- The error line "Error while adding document to vector store: message". -/
  | vectorStoreError (message : String)
  /-- The error line "Worker error: message". -/
  | workerError (message : String)
  /-- The info line of the `completed` handler. -/
  | jobCompleted
  /-- The error line of the `failed` handler. -/
  | jobFailed (message : String)
  deriving DecidableEq, Repr

/-- The observable effects: the log and the calls of `fromDocuments`, oldest first. -/
structure World where
  logs : List LogEvent
  storeCalls : List StoreCall
  deriving DecidableEq, Repr

/-- The state before anything happened. -/
def World.empty : World := ⟨[], []⟩

/-- One more log line. -/
def World.log (w : World) (e : LogEvent) : World :=
  { w with logs := w.logs ++ [e] }

/-- One more call of `fromDocuments`. -/
def World.call (w : World) (c : StoreCall) : World :=
  { w with storeCalls := w.storeCalls ++ [c] }

/-- The inner `try { await QdrantVectorStore.fromDocuments(...) } catch (error) { ... }`.
The handler logs `error.message`; what the handler itself throws leaves the
statement. -/
def storeDocuments (env : Env) (call : StoreCall) (w : World) : Except Thrown Unit × World :=
  match env.fromDocuments call with
  | .ok _ => (.ok (), (w.call call).log .documentAdded)
  | .error error =>
    match error.readMessage with
    | .ok m => (.ok (), (w.call call).log (.vectorStoreError m))
    | .error typeError => (.error typeError, w.call call)

/-- The statements of the processor from the join of the pages on.  The
constructor of the embeddings client runs in the outer `try` block, before the
inner one: when it throws, `fromDocuments` is not called. -/
def embedFullText (cloudinaryUrl : JSString) (pdftext : List JSString) (env : Env) (w : World) :
    Except Thrown Unit × World :=
  let fullText := trim (join spaceSep pdftext)
  if fullText.length = 0 then
    (.error (.apiError 400 "PDF text is empty or couldn't be parsed"), w)
  else
    let w1 := w.log (.fullTextLength fullText.length)
    let docs : List Document := [{ pageContent := fullText, metadata := { source := cloudinaryUrl } }]
    let embeddings : Embeddings := { apiKey := env.cohereApiKey, model := "embed-english-v3.0" }
    match env.newCohereEmbeddings embeddings with
    | .error message => (.error (.error message), w1)
    | .ok _ =>
      storeDocuments env
        { docs := docs, embeddings := embeddings, url := "http://localhost:6333",
          collectionName := "ragapp" }
        w1

/-- The body of the outer `try` block of the processor: `.error e` when a
statement throws `e`. -/
def tryBlock (data : JobData) (env : Env) (w : World) : Except Thrown Unit × World :=
  match data.cloudinaryUrl with
  | none => (.error (.apiError 400 "Cloudinary URL is missing"), w)
  | some [] => (.error (.apiError 400 "Cloudinary URL is missing"), w)
  | some (c :: cs) =>
    match data.pdftext with
    | .falsy => (.error (.apiError 400 "text is missing"), w)
    | .noJoin => (.error (.error "pdftext.join is not a function"), w)
    | .pages ps => embedFullText (c :: cs) ps env w

/-- The processor passed to `new Worker("file-upload-queue", ...)`: the outer
`try` block and its handler `catch (error) { logger.error(...error.message...) }`.
The result is `.ok ()` when the promise of the processor resolves and `.error e`
when it rejects with `e`. -/
def processor (data : JobData) (env : Env) (w : World) : Except Thrown Unit × World :=
  match tryBlock data env w with
  | (.ok _, w1) => (.ok (), w1)
  | (.error error, w1) =>
    match error.readMessage with
    | .ok m => (.ok (), w1.log (.workerError m))
    | .error typeError => (.error typeError, w1)

/-! ## The queue -/

/-- The options given to `queue.add`: `attempts` and the delay of the
exponential `backoff`, in milliseconds. -/
structure JobOptions where
  attempts : Nat
  backoffDelay : Nat
  deriving DecidableEq, Repr

/-- The options of the upload handler `uploadPdf`:
`{ attempts: 3, backoff: { type: "exponential", delay: 5000 } }`. -/
def uploadPdfOptions : JobOptions := { attempts := 3, backoffDelay := 5000 }

/-- The status of a job in the queue. -/
inductive JobStatus where
  | pending
  | inProgress
  | completed
  | failedRetryable
  | dead
  deriving DecidableEq, Repr

/-- The bookkeeping of the queue for one job: `attempt` is the counter that
`fail` increments, `processed` counts the runs of the processor, `delays` lists
the delays recorded before the retries, oldest first. -/
structure QueueJob where
  data : JobData
  opts : JobOptions
  attempt : Nat
  processed : Nat
  status : JobStatus
  delays : List Nat
  deriving DecidableEq, Repr

/-- Modelled from the spec: the operation `enqueue(job, options)` of the Job
Queue (the queue is the bullmq package, of which the repository only holds the
calls); a new job is `pending` with `attempt` 0. -/
def enqueue (data : JobData) (opts : JobOptions) : QueueJob :=
  { data := data, opts := opts, attempt := 0, processed := 0, status := .pending, delays := [] }

/-- Modelled from the spec: the operation `ack(jobId)` of the Job Queue, which
marks the job `completed`. -/
def ack (q : QueueJob) : QueueJob :=
  { q with status := .completed }

/-- Modelled from the spec: the operation `fail(jobId, error)` of the Job Queue.
It increments `attempt`; if `attempt < maxAttempts` the job is rescheduled after
`baseDelay * 2^(attempt-1)` and is `pending` again, otherwise it is `dead`. -/
def fail (q : QueueJob) : QueueJob :=
  let attempt := q.attempt + 1
  if attempt < q.opts.attempts then
    { q with attempt := attempt, status := .pending,
             delays := q.delays ++ [q.opts.backoffDelay * 2 ^ (attempt - 1)] }
  else
    { q with attempt := attempt, status := .dead }

/-- Modelled from the spec: one delivery of a job by the Job Queue to a
processor `run`.  The job is acknowledged when the processor returns and failed
when it raises; the `completed` and `failed` handlers of `worker.js` log the
event. -/
def deliver (run : JobData → World → Except Thrown Unit × World) (q : QueueJob) (w : World) :
    QueueJob × World :=
  let q1 := { q with status := .inProgress, processed := q.processed + 1 }
  match run q1.data w with
  | (.ok _, w1) => (ack q1, w1.log .jobCompleted)
  | (.error err, w1) =>
    match err.readMessage with
    | .ok m => (fail q1, w1.log (.jobFailed m))
    | .error _ => (fail q1, w1)

/-- Modelled from the spec: the Job Queue delivers a job again as long as it is
`pending`; `runAt n` is the processor at the delivery number `n` (counted from 0). -/
def deliverLoop (runAt : Nat → JobData → World → Except Thrown Unit × World) :
    Nat → QueueJob → World → QueueJob × World
  | 0, q, w => (q, w)
  | fuel + 1, q, w =>
    if q.status = .pending then
      let (q1, w1) := deliver (runAt q.processed) q w
      deliverLoop runAt fuel q1 w1
    else (q, w)

/-- Modelled from the spec: the life of a job added to the Job Queue with options
`opts` and run by a processor.  A job is delivered at most `max 1 opts.attempts`
times, which the loop gets as fuel. -/
def runQueue (runAt : Nat → JobData → World → Except Thrown Unit × World) (data : JobData)
    (opts : JobOptions) : QueueJob × World :=
  deliverLoop runAt (max 1 opts.attempts) (enqueue data opts) World.empty

/-- The life of a job of the `file-upload-queue`: the processor of `worker.js`
in the environment `envAt n` at the delivery number `n`. -/
def runWorker (envAt : Nat → Env) (data : JobData) (opts : JobOptions) : QueueJob × World :=
  runQueue (fun n d w => processor d (envAt n) w) data opts

/-! ## The upload widget (`file-upload.tsx`) -/

/-- The fields of a `File` read by `handleFiles`. -/
structure File where
  type : String
  size : Nat
  deriving DecidableEq, Repr

/-- The field `state` of `UploadStatus`. -/
inductive UploadState where
  | idle
  | uploading
  | processing
  | embedding
  | storing
  | success
  | error
  deriving DecidableEq, Repr

/-- The interface `UploadStatus`. -/
structure UploadStatus where
  state : UploadState
  message : Option String
  progress : Option Nat
  deriving DecidableEq, Repr

/-- The maximum shown to the user, "Supported files: PDF (Max size: 25MB)". -/
def advertisedMaxSize : Nat := 25 * 1024 * 1024

/-- What `handleFiles` does up to the upload request: the calls of
`setUploadStatus`, in order, and the file posted with `fetch`, if any. -/
structure HandleFilesResult where
  statuses : List UploadStatus
  posted : Option File
  deriving DecidableEq, Repr

/-- The function `handleFiles` up to the request: no file, the type check, the
size check, then the `uploading` state and the request. -/
def handleFiles (files : List File) : HandleFilesResult :=
  match files with
  | [] => { statuses := [], posted := none }
  | file :: _ =>
    let idle : UploadStatus := { state := .idle, message := none, progress := none }
    if file.type ≠ "application/pdf" then
      { statuses := [idle, { state := .error, message := some "Please upload a PDF file", progress := none }],
        posted := none }
    else if file.size > 10 * 1024 * 1024 then
      { statuses := [idle, { state := .error, message := some "File size exceeds 15MB limit", progress := none }],
        posted := none }
    else
      { statuses := [idle, { state := .uploading, message := some "Uploading document...", progress := some 0 }],
        posted := some file }

/-! ## Sample values -/

/-- The string "Hello". -/
def hello : JSString := [72, 101, 108, 108, 111]

/-- The string "World". -/
def world : JSString := [87, 111, 114, 108, 100]

/-- The string "https://x/a.pdf". -/
def sampleUrl : JSString := [104, 116, 116, 112, 115, 58, 47, 47, 120, 47, 97, 46, 112, 100, 102]

/-- An environment whose vector store acknowledges every write. -/
def envOk : Env :=
  { cohereApiKey := some "key", newCohereEmbeddings := fun _ => .ok (),
    fromDocuments := fun _ => .ok () }

/-- An environment whose embedding / vector-store call fails every time. -/
def envFail : Env :=
  { cohereApiKey := some "key", newCohereEmbeddings := fun _ => .ok (),
    fromDocuments := fun _ => .error (.error "connect ECONNREFUSED") }

/-- An environment without `COHERE_API_KEY`: the constructor of the embeddings
client throws, the vector store would acknowledge every write. -/
def envNoKey : Env :=
  { cohereApiKey := none,
    newCohereEmbeddings := fun fields =>
      match fields.apiKey with
      | none => .error "Cohere API key not found"
      | some _ => .ok (),
    fromDocuments := fun _ => .ok () }

/-! ## Lemmas on strings -/

theorem dropWhile_all_iff (p : Nat → Bool) (s : List Nat) :
    (∀ x ∈ s.dropWhile p, p x = true) ↔ ∀ x ∈ s, p x = true := by
  induction s with
  | nil => simp
  | cons a t ih =>
    cases h : p a with
    | true => simp [List.dropWhile, h, ih]
    | false => simp [List.dropWhile, h]

/-- The trimmed string is empty exactly when every code unit is white space. -/
theorem trim_eq_nil_iff (s : JSString) :
    trim s = [] ↔ ∀ c ∈ s, isTrimChar c = true := by
  unfold trim trimEnd trimStart
  rw [List.reverse_eq_nil_iff, List.dropWhile_eq_nil_iff]
  simp only [List.mem_reverse]
  exact dropWhile_all_iff isTrimChar s

/-- The test of the filter of `extractTextFromPDF` holds exactly for the pages
with a code unit that is not white space. -/
theorem trim_length_pos_iff (s : JSString) :
    (trim s).length > 0 ↔ ∃ c ∈ s, isTrimChar c = false := by
  rw [gt_iff_lt, List.length_pos, Ne, trim_eq_nil_iff]
  simp

theorem splitAux_ne_nil (sep : Nat) (s cur : JSString) : splitAux sep s cur ≠ [] := by
  induction s generalizing cur with
  | nil => simp [splitAux]
  | cons c cs ih =>
    unfold splitAux
    split
    · simp
    · exact ih _

theorem intercalate_cons_cons (sep : Nat) (a b : JSString) (l : List JSString) :
    [sep].intercalate (a :: b :: l) = a ++ sep :: [sep].intercalate (b :: l) := by
  simp [List.intercalate, List.intersperse]

theorem splitAux_intercalate (sep : Nat) (s cur : JSString) :
    [sep].intercalate (splitAux sep s cur) = cur.reverse ++ s := by
  induction s generalizing cur with
  | nil => simp [splitAux, List.intercalate]
  | cons c cs ih =>
    unfold splitAux
    split
    · next h =>
      subst h
      have h1 := ih []
      cases hs : splitAux c cs [] with
      | nil => exact absurd hs (splitAux_ne_nil _ _ _)
      | cons q qs =>
        rw [hs] at h1
        rw [intercalate_cons_cons, h1]
        simp
    · next h =>
      rw [ih (c :: cur)]
      simp

/-- Joining the pieces of `split` with the separator gives the string back. -/
theorem split_intercalate (sep : Nat) (s : JSString) :
    [sep].intercalate (split sep s) = s := by
  simp [split, splitAux_intercalate]

theorem splitAux_not_mem (sep : Nat) (s cur : JSString) (hcur : sep ∉ cur) :
    ∀ p ∈ splitAux sep s cur, sep ∉ p := by
  induction s generalizing cur with
  | nil => simpa [splitAux] using hcur
  | cons c cs ih =>
    unfold splitAux
    split
    · next h =>
      intro p hp
      rcases List.mem_cons.mp hp with hp | hp
      · subst hp; simpa using hcur
      · exact ih [] (by simp) p hp
    · next h =>
      apply ih
      simp only [List.mem_cons, not_or]
      exact ⟨fun e => h e.symm, hcur⟩

/-- No piece of `split` holds the separator. -/
theorem split_not_mem (sep : Nat) (s : JSString) : ∀ p ∈ split sep s, sep ∉ p :=
  splitAux_not_mem sep s [] (by simp)

/-- On strings, `join` puts the separator between consecutive elements. -/
theorem join_eq_intercalate (sep : JSString) (ps : List JSString) :
    join sep ps = sep.intercalate ps := by
  induction ps with
  | nil => simp [join, List.intercalate]
  | cons p qs ih =>
    cases qs with
    | nil => simp [join, List.intercalate]
    | cons q rs =>
      rw [join, ih]
      simp [List.intercalate, List.intersperse]

theorem mem_join_of_mem (sep : JSString) (ps : List JSString) (p : JSString) (hp : p ∈ ps)
    (c : Nat) (hc : c ∈ p) : c ∈ join sep ps := by
  induction ps with
  | nil => simp at hp
  | cons a qs ih =>
    cases qs with
    | nil =>
      simp only [List.mem_singleton] at hp
      subst hp
      simpa [join] using hc
    | cons q rs =>
      rw [join]
      rcases List.mem_cons.mp hp with h | h
      · subst h; simp [hc]
      · simp [ih h]

/-- Every page kept by `extractTextFromPDF` has a code unit that is not white space. -/
theorem extractPages_mem (text : JSString) (p : JSString) (hp : p ∈ extractPages text) :
    ∃ c ∈ p, isTrimChar c = false := by
  unfold extractPages at hp
  rw [List.mem_filter] at hp
  exact (trim_length_pos_iff p).mp (by simpa using hp.2)

/-- A non-empty list of pages that all have text is joined and trimmed into a
non-empty string. -/
theorem trim_join_ne_nil (ps : List JSString) (hne : ps ≠ [])
    (h : ∀ p ∈ ps, ∃ c ∈ p, isTrimChar c = false) : trim (join spaceSep ps) ≠ [] := by
  obtain ⟨p, hp⟩ := List.exists_mem_of_ne_nil ps hne
  obtain ⟨c, hc, hws⟩ := h p hp
  intro hnil
  have := (trim_eq_nil_iff _).mp hnil c (mem_join_of_mem spaceSep ps p hp c hc)
  rw [hws] at this
  exact Bool.noConfusion this

/-! ## Lemmas on the worker and the queue -/

theorem storeDocuments_calls (env : Env) (call : StoreCall) (w : World) :
    (storeDocuments env call w).2.storeCalls = w.storeCalls ++ [call] := by
  unfold storeDocuments
  cases env.fromDocuments call with
  | ok u => simp [World.log, World.call]
  | error e => cases e <;> simp [Thrown.readMessage, World.log, World.call]

theorem storeDocuments_error (env : Env) (call : StoreCall) (w : World) (e : Thrown)
    (h : (storeDocuments env call w).1 = .error e) : ∃ m, e.readMessage = .ok m := by
  unfold storeDocuments at h
  cases hfd : env.fromDocuments call with
  | ok u => simp [hfd] at h
  | error e1 =>
    cases e1 <;> simp [hfd, Thrown.readMessage] at h
    all_goals
      subst h
      exact ⟨_, rfl⟩

/-- Whatever the outer `try` block throws is an object with a `message`. -/
theorem tryBlock_error (data : JobData) (env : Env) (w : World) (e : Thrown)
    (h : (tryBlock data env w).1 = .error e) : ∃ m, e.readMessage = .ok m := by
  unfold tryBlock at h
  split at h
  · simp at h; subst h; exact ⟨_, rfl⟩
  · simp at h; subst h; exact ⟨_, rfl⟩
  · split at h
    · simp at h; subst h; exact ⟨_, rfl⟩
    · simp at h; subst h; exact ⟨_, rfl⟩
    · unfold embedFullText at h
      simp only at h
      split at h
      · simp at h; subst h; exact ⟨_, rfl⟩
      · split at h
        · simp at h; subst h; exact ⟨_, rfl⟩
        · exact storeDocuments_error _ _ _ _ h

/-- The promise of the processor always resolves. -/
theorem processor_ok (data : JobData) (env : Env) (w : World) :
    (processor data env w).1 = .ok () := by
  unfold processor
  split
  · rfl
  · next e w1 heq =>
    have h1 : (tryBlock data env w).1 = .error e := by rw [heq]
    obtain ⟨m, hm⟩ := tryBlock_error data env w e h1
    simp [hm]

theorem deliverLoop_not_pending (runAt : Nat → JobData → World → Except Thrown Unit × World)
    (fuel : Nat) (q : QueueJob) (w : World) (h : q.status ≠ .pending) :
    deliverLoop runAt fuel q w = (q, w) := by
  cases fuel with
  | zero => rfl
  | succ n => simp [deliverLoop, h]

/-- A job whose processor returns at the first delivery is acknowledged there. -/
theorem runQueue_of_ok (runAt : Nat → JobData → World → Except Thrown Unit × World)
    (data : JobData) (opts : JobOptions) (h : (runAt 0 data World.empty).1 = .ok ()) :
    runQueue runAt data opts =
      ({ data := data, opts := opts, attempt := 0, processed := 1, status := .completed, delays := [] },
       (runAt 0 data World.empty).2.log .jobCompleted) := by
  unfold runQueue
  obtain ⟨n, hn⟩ : ∃ n, max 1 opts.attempts = n + 1 := ⟨max 1 opts.attempts - 1, by omega⟩
  rw [hn, deliverLoop]
  have hd : deliver (runAt (enqueue data opts).processed) (enqueue data opts) World.empty =
      ({ data := data, opts := opts, attempt := 0, processed := 1, status := .completed, delays := [] },
       (runAt 0 data World.empty).2.log .jobCompleted) := by
    unfold deliver
    simp only [enqueue]
    rcases hr : runAt 0 data World.empty with ⟨r, w1⟩
    rw [hr] at h
    simp only at h
    subst h
    simp [ack]
  simp only [enqueue, if_true] at hd ⊢
  rw [hd]
  exact deliverLoop_not_pending _ _ _ _ (by simp)

/-- The calls of `fromDocuments` made for a job that passes the three checks,
when the embeddings client is built. -/
theorem processor_storeCalls (url : JSString) (pages : List JSString) (env : Env)
    (hurl : url ≠ []) (htext : trim (join spaceSep pages) ≠ [])
    (hclient : env.newCohereEmbeddings
      { apiKey := env.cohereApiKey, model := "embed-english-v3.0" } = .ok ()) :
    (processor { cloudinaryUrl := some url, pdftext := .pages pages } env World.empty).2.storeCalls =
      [{ docs := [{ pageContent := trim ([32].intercalate pages), metadata := { source := url } }],
         embeddings := { apiKey := env.cohereApiKey, model := "embed-english-v3.0" },
         url := "http://localhost:6333", collectionName := "ragapp" }] := by
  obtain ⟨c, cs, rfl⟩ := List.exists_cons_of_ne_nil hurl
  have hlen : (trim (join spaceSep pages)).length ≠ 0 := by
    simpa [List.length_eq_zero] using htext
  have htry : (tryBlock { cloudinaryUrl := some (c :: cs), pdftext := .pages pages } env
      World.empty).2.storeCalls =
      [{ docs := [{ pageContent := trim ([32].intercalate pages), metadata := { source := c :: cs } }],
         embeddings := { apiKey := env.cohereApiKey, model := "embed-english-v3.0" },
         url := "http://localhost:6333", collectionName := "ragapp" }] := by
    simp only [tryBlock, embedFullText, if_neg hlen, hclient, storeDocuments_calls]
    simp [World.log, World.empty, join_eq_intercalate, spaceSep]
  unfold processor
  split
  · next u w1 heq => rw [heq] at htry; exact htry
  · next e w1 heq =>
    rw [heq] at htry
    cases e <;> simpa [Thrown.readMessage, World.log] using htry

/-- When the constructor of the embeddings client throws, the processor makes no
call of `fromDocuments`. -/
theorem processor_storeCalls_no_client (data : JobData) (env : Env) (message : String)
    (hclient : env.newCohereEmbeddings
      { apiKey := env.cohereApiKey, model := "embed-english-v3.0" } = .error message) :
    (processor data env World.empty).2.storeCalls = [] := by
  have htry : (tryBlock data env World.empty).2.storeCalls = [] := by
    unfold tryBlock
    split
    · rfl
    · rfl
    · split
      · rfl
      · rfl
      · unfold embedFullText
        simp only [hclient]
        split <;> simp [World.log, World.empty]
  unfold processor
  split
  · next u w1 heq => rw [heq] at htry; exact htry
  · next e w1 heq =>
    rw [heq] at htry
    cases e <;> simpa [Thrown.readMessage, World.log] using htry

/-- The processor of a job with a non-empty `cloudinaryUrl` and an empty page
list: the empty-text error is logged and nothing else happens. -/
theorem processor_no_pages (url : JSString) (env : Env) (hurl : url ≠ []) :
    (processor { cloudinaryUrl := some url, pdftext := .pages [] } env World.empty).2 =
      { logs := [.workerError "PDF text is empty or couldn't be parsed"], storeCalls := [] } := by
  obtain ⟨c, cs, rfl⟩ := List.exists_cons_of_ne_nil hurl
  have ht : (trim (join spaceSep [])).length = 0 := by decide
  simp [processor, tryBlock, embedFullText, ht, Thrown.readMessage, World.log, World.empty]

theorem storeDocuments_jobFailed (env : Env) (call : StoreCall) (w : World) (m : String)
    (h : LogEvent.jobFailed m ∈ (storeDocuments env call w).2.logs) :
    LogEvent.jobFailed m ∈ w.logs := by
  unfold storeDocuments at h
  cases hfd : env.fromDocuments call with
  | ok u => simpa [hfd, World.log, World.call] using h
  | error e => cases e <;> simpa [hfd, Thrown.readMessage, World.log, World.call] using h

theorem tryBlock_jobFailed (data : JobData) (env : Env) (w : World) (m : String)
    (h : LogEvent.jobFailed m ∈ (tryBlock data env w).2.logs) :
    LogEvent.jobFailed m ∈ w.logs := by
  unfold tryBlock at h
  split at h
  · exact h
  · exact h
  · split at h
    · exact h
    · exact h
    · unfold embedFullText at h
      simp only at h
      split at h
      · exact h
      · split at h
        · simpa [World.log] using h
        · simpa [World.log] using storeDocuments_jobFailed _ _ _ _ h

/-- The processor writes no line of the `failed` handler. -/
theorem processor_jobFailed (data : JobData) (env : Env) (w : World) (m : String)
    (h : LogEvent.jobFailed m ∈ (processor data env w).2.logs) :
    LogEvent.jobFailed m ∈ w.logs := by
  unfold processor at h
  split at h
  · next u w1 heq =>
    apply tryBlock_jobFailed data env w m
    rw [heq]; exact h
  · next e w1 heq =>
    apply tryBlock_jobFailed data env w m
    rw [heq]
    cases e <;> simpa [Thrown.readMessage, World.log] using h

/-- With a processor that raises at every delivery, the options of `uploadPdf`
give three deliveries, the delays 5000 and 10000, and a dead job. -/
theorem runQueue_always_raising (data : JobData) (e : Thrown) :
    (runQueue (fun _ _ w => (.error e, w)) data uploadPdfOptions).1 =
      { data := data, opts := uploadPdfOptions, attempt := 3, processed := 3, status := .dead,
        delays := [5000, 10000] } := by
  cases e <;> simp [runQueue, deliverLoop, deliver, enqueue, fail, uploadPdfOptions,
    Thrown.readMessage]

/-! ## The claims -/

/-- C3: for a raw text with at least one page that has non-white-space content,
`extractTextFromPDF` returns exactly the form-feed-separated pages (the pieces
that contain no form feed and give the text back when joined with form feeds)
whose trimmed content is non-empty, that is which hold a code unit that is not
white space: the length is the number of such pages, the order is the original
one, the kept pages are unmodified, and the result is not empty. -/
theorem extractTextFromPDF_keeps_nonblank_pages (text : JSString)
    (h : ∃ page ∈ split formFeed text, ∃ c ∈ page, isTrimChar c = false) :
    [formFeed].intercalate (split formFeed text) = text ∧
    (∀ page ∈ split formFeed text, formFeed ∉ page) ∧
    extractTextFromPDF (.ok text) =
      .ok ((split formFeed text).filter (fun page => page.any (fun c => !isTrimChar c))) ∧
    (∀ page, page ∈ extractPages text ↔ page ∈ split formFeed text ∧ trim page ≠ []) ∧
    (extractPages text).length =
      (split formFeed text).countP (fun page => page.any (fun c => !isTrimChar c)) ∧
    (extractPages text).Sublist (split formFeed text) ∧
    extractPages text ≠ [] := by
  have hfilter : extractPages text =
      (split formFeed text).filter (fun page => page.any (fun c => !isTrimChar c)) := by
    unfold extractPages
    apply List.filter_congr
    intro page _
    rw [Bool.eq_iff_iff]
    simp [trim_length_pos_iff]
  have hmem : ∀ page, page ∈ extractPages text ↔ page ∈ split formFeed text ∧ trim page ≠ [] := by
    intro page
    unfold extractPages
    rw [List.mem_filter]
    simp [List.length_pos]
  refine ⟨split_intercalate _ _, split_not_mem _ _, ?_, hmem, ?_, ?_, ?_⟩
  · simp [extractTextFromPDF, hfilter]
  · rw [hfilter, List.countP_eq_length_filter]
  · exact List.filter_sublist _
  · obtain ⟨page, hp, c, hc, hws⟩ := h
    have hin : page ∈ extractPages text := by
      rw [hmem]
      refine ⟨hp, fun hnil => ?_⟩
      have := (trim_eq_nil_iff page).mp hnil c hc
      rw [hws] at this
      exact Bool.noConfusion this
    exact List.ne_nil_of_mem hin

/-- C3, on the text "Hello\f \fWorld": the pages "Hello" and "World". -/
theorem extractTextFromPDF_keeps_nonblank_pages_witness :
    (∃ page ∈ split formFeed (hello ++ [12, 32, 12] ++ world), ∃ c ∈ page, isTrimChar c = false) ∧
    extractTextFromPDF (.ok (hello ++ [12, 32, 12] ++ world)) =
      .ok ((split formFeed (hello ++ [12, 32, 12] ++ world)).filter
        (fun page => page.any (fun c => !isTrimChar c))) ∧
    extractPages (hello ++ [12, 32, 12] ++ world) = [hello, world] :=
  ⟨⟨hello, by decide, 72, by decide, by decide⟩,
   (extractTextFromPDF_keeps_nonblank_pages (hello ++ [12, 32, 12] ++ world)
      ⟨hello, by decide, 72, by decide, by decide⟩).2.2.1,
   by decide⟩

/-- C5 (amended): for a job with a non-empty `cloudinaryUrl` and pages whose
joined and trimmed text is non-empty, when the embeddings client is built, the
processor calls `QdrantVectorStore.fromDocuments` exactly once, with exactly one
document: its `pageContent` is the pages in order with one space between
consecutive pages, trimmed, and its `metadata.source` is the `cloudinaryUrl`;
this holds whether the call then succeeds or fails. -/
theorem processor_submits_one_record (url : JSString) (pages : List JSString) (env : Env)
    (hurl : url ≠ []) (htext : trim (join spaceSep pages) ≠ [])
    (hclient : env.newCohereEmbeddings
      { apiKey := env.cohereApiKey, model := "embed-english-v3.0" } = .ok ()) :
    (processor { cloudinaryUrl := some url, pdftext := .pages pages } env World.empty).2.storeCalls =
      [{ docs := [{ pageContent := trim ([32].intercalate pages), metadata := { source := url } }],
         embeddings := { apiKey := env.cohereApiKey, model := "embed-english-v3.0" },
         url := "http://localhost:6333", collectionName := "ragapp" }] :=
  processor_storeCalls url pages env hurl htext hclient

/-- C5 (amended), on the pages "Hello" and "World": one record with the text
"Hello World". -/
theorem processor_submits_one_record_witness :
    sampleUrl ≠ [] ∧ trim (join spaceSep [hello, world]) ≠ [] ∧
    envOk.newCohereEmbeddings { apiKey := envOk.cohereApiKey, model := "embed-english-v3.0" } =
      .ok () ∧
    trim ([32].intercalate [hello, world]) = hello ++ [32] ++ world ∧
    (processor { cloudinaryUrl := some sampleUrl, pdftext := .pages [hello, world] } envOk
      World.empty).2.storeCalls =
      [{ docs := [{ pageContent := trim ([32].intercalate [hello, world]),
                    metadata := { source := sampleUrl } }],
         embeddings := { apiKey := envOk.cohereApiKey, model := "embed-english-v3.0" },
         url := "http://localhost:6333", collectionName := "ragapp" }] :=
  ⟨by decide, by decide, rfl, by decide,
   processor_submits_one_record sampleUrl [hello, world] envOk (by decide) (by decide) rfl⟩

/-- C5 as stated fails: the page list with the one page " " has a non-empty
joined text and a non-empty `cloudinaryUrl`, yet no record is submitted, since
the trimmed text is empty; and with the pages "Hello" and "World" no record is
submitted when the constructor of the embeddings client throws. -/
theorem joined_text_nonempty_no_record :
    sampleUrl ≠ [] ∧ join spaceSep [[32]] ≠ [] ∧
    (processor { cloudinaryUrl := some sampleUrl, pdftext := .pages [[32]] } envOk
      World.empty).2.storeCalls = [] ∧
    join spaceSep [hello, world] ≠ [] ∧
    (processor { cloudinaryUrl := some sampleUrl, pdftext := .pages [hello, world] } envNoKey
      World.empty).2.storeCalls = [] := by
  decide

/-- C8: the processor never raises.  For every job payload and every outcome of
`QdrantVectorStore.fromDocuments` its promise resolves, so for every option set
the queue records the job as completed at its first delivery: one run of the
processor, the failure counter at 0, no delay recorded, and no line of the
`failed` handler in the log. -/
theorem processor_never_raises (data : JobData) (env : Env) (w : World) (envAt : Nat → Env)
    (opts : JobOptions) :
    (processor data env w).1 = .ok () ∧
    (runWorker envAt data opts).1.status = .completed ∧
    (runWorker envAt data opts).1.processed = 1 ∧
    (runWorker envAt data opts).1.attempt = 0 ∧
    (runWorker envAt data opts).1.delays = [] ∧
    (∀ m, LogEvent.jobFailed m ∉ (runWorker envAt data opts).2.logs) ∧
    (runWorker envAt data opts).2.logs.getLast? = some .jobCompleted := by
  have hrun := runQueue_of_ok (fun n d w => processor d (envAt n) w) data opts
    (processor_ok data (envAt 0) World.empty)
  refine ⟨processor_ok data env w, ?_, ?_, ?_, ?_, ?_, ?_⟩
  · simp [runWorker, hrun]
  · simp [runWorker, hrun]
  · simp [runWorker, hrun]
  · simp [runWorker, hrun]
  · intro m hm
    simp only [runWorker, hrun, World.log, List.mem_append, List.mem_singleton] at hm
    rcases hm with hm | hm
    · have := processor_jobFailed data (envAt 0) World.empty m hm
      simp [World.empty] at this
    · exact LogEvent.noConfusion hm
  · simp [runWorker, hrun, World.log]

/-- C9 (amended): for a job with a non-empty `cloudinaryUrl` whose `pdftext` is
the page list that `extractTextFromPDF` computes from a raw text, when the
embeddings client is built, `fromDocuments` is called if and only if the page
list is non-empty; a non-empty page list always joins and trims to a non-empty
text, and the empty page list makes the processor log the empty-text error (not
the error "text is missing"). -/
theorem store_call_iff_pages_nonempty (text url : JSString) (env : Env) (hurl : url ≠ [])
    (hclient : env.newCohereEmbeddings
      { apiKey := env.cohereApiKey, model := "embed-english-v3.0" } = .ok ()) :
    ((processor { cloudinaryUrl := some url, pdftext := .pages (extractPages text) } env
        World.empty).2.storeCalls ≠ [] ↔ extractPages text ≠ []) ∧
    (extractPages text ≠ [] → trim (join spaceSep (extractPages text)) ≠ []) ∧
    (extractPages text = [] →
      (processor { cloudinaryUrl := some url, pdftext := .pages (extractPages text) } env
        World.empty).2.logs = [.workerError "PDF text is empty or couldn't be parsed"]) := by
  have hjoin : extractPages text ≠ [] → trim (join spaceSep (extractPages text)) ≠ [] :=
    fun hne => trim_join_ne_nil _ hne (extractPages_mem text)
  refine ⟨?_, hjoin, ?_⟩
  · constructor
    · intro hcalls hnil
      rw [hnil, processor_no_pages url env hurl] at hcalls
      exact hcalls rfl
    · intro hne
      rw [processor_storeCalls url _ env hurl (hjoin hne) hclient]
      simp
  · intro hnil
    rw [hnil, processor_no_pages url env hurl]

/-- C9 (amended), on the raw text "Hello\fWorld", whose two pages give one call
of `fromDocuments` with the text "Hello World", and on the raw text " \f\n\f",
of which no page is kept and for which only the empty-text error is logged. -/
theorem store_call_iff_pages_nonempty_witness :
    sampleUrl ≠ [] ∧
    envOk.newCohereEmbeddings { apiKey := envOk.cohereApiKey, model := "embed-english-v3.0" } =
      .ok () ∧
    extractPages (hello ++ [12] ++ world) = [hello, world] ∧
    (processor { cloudinaryUrl := some sampleUrl,
                 pdftext := .pages (extractPages (hello ++ [12] ++ world)) } envOk
        World.empty).2.storeCalls ≠ [] ∧
    trim (join spaceSep (extractPages (hello ++ [12] ++ world))) ≠ [] ∧
    extractPages [32, 12, 10, 12] = [] ∧
    ¬ (processor { cloudinaryUrl := some sampleUrl, pdftext := .pages (extractPages [32, 12, 10, 12]) }
        envOk World.empty).2.storeCalls ≠ [] ∧
    (processor { cloudinaryUrl := some sampleUrl, pdftext := .pages (extractPages [32, 12, 10, 12]) }
        envOk World.empty).2.logs = [.workerError "PDF text is empty or couldn't be parsed"] :=
  ⟨by decide, rfl, by decide,
   (store_call_iff_pages_nonempty (hello ++ [12] ++ world) sampleUrl envOk (by decide) rfl).1.mpr
     (by decide),
   (store_call_iff_pages_nonempty (hello ++ [12] ++ world) sampleUrl envOk (by decide) rfl).2.1
     (by decide),
   by decide,
   fun h => (store_call_iff_pages_nonempty [32, 12, 10, 12] sampleUrl envOk (by decide) rfl).1.mp h
     (by decide),
   (store_call_iff_pages_nonempty [32, 12, 10, 12] sampleUrl envOk (by decide) rfl).2.2 (by decide)⟩

/-- C9 as stated fails: the raw text "Hello\fWorld" gives a non-empty page list
and the `cloudinaryUrl` is non-empty, yet `fromDocuments` is not called when the
constructor of the embeddings client throws; the error of the constructor is
what the processor logs. -/
theorem pages_nonempty_no_store_call :
    sampleUrl ≠ [] ∧ extractPages (hello ++ [12] ++ world) ≠ [] ∧
    (processor { cloudinaryUrl := some sampleUrl,
                 pdftext := .pages (extractPages (hello ++ [12] ++ world)) } envNoKey
        World.empty).2 =
      { logs := [.fullTextLength 11, .workerError "Cohere API key not found"], storeCalls := [] } := by
  decide

/-- C1: a job without `cloudinaryUrl` ends `completed` although `fromDocuments`
was never called, and a job whose `fromDocuments` call fails ends `completed`
although no write was acknowledged. -/
theorem completed_without_store_write :
    (runWorker (fun _ => envOk) { cloudinaryUrl := none, pdftext := .pages [hello, world] }
      uploadPdfOptions).1.status = .completed ∧
    (runWorker (fun _ => envOk) { cloudinaryUrl := none, pdftext := .pages [hello, world] }
      uploadPdfOptions).2.storeCalls = [] ∧
    (runWorker (fun _ => envFail) { cloudinaryUrl := some sampleUrl, pdftext := .pages [hello, world] }
      uploadPdfOptions).1.status = .completed ∧
    (runWorker (fun _ => envFail) { cloudinaryUrl := some sampleUrl, pdftext := .pages [hello, world] }
      uploadPdfOptions).2.logs =
        [.fullTextLength 11, .vectorStoreError "connect ECONNREFUSED", .jobCompleted] := by
  decide

/-- C2: at each of the four failures (no `cloudinaryUrl`, no `pdftext`, an empty
full text, a failing `fromDocuments` call) the processor logs the error and its
promise resolves; it does not raise the error. -/
theorem processor_swallows_errors :
    processor { cloudinaryUrl := none, pdftext := .pages [hello] } envOk World.empty =
      (.ok (), { logs := [.workerError "Cloudinary URL is missing"], storeCalls := [] }) ∧
    processor { cloudinaryUrl := some sampleUrl, pdftext := .falsy } envOk World.empty =
      (.ok (), { logs := [.workerError "text is missing"], storeCalls := [] }) ∧
    processor { cloudinaryUrl := some sampleUrl, pdftext := .pages [[32]] } envOk World.empty =
      (.ok (), { logs := [.workerError "PDF text is empty or couldn't be parsed"], storeCalls := [] }) ∧
    (processor { cloudinaryUrl := some sampleUrl, pdftext := .pages [hello] } envFail World.empty).1 =
      .ok () ∧
    (processor { cloudinaryUrl := some sampleUrl, pdftext := .pages [hello] } envFail World.empty).2.logs =
      [.fullTextLength 5, .vectorStoreError "connect ECONNREFUSED"] :=
  ⟨rfl, rfl, rfl, rfl, rfl⟩

/-- C4: on the raw text " \f\n\f" the extraction gives the empty list and
`fromDocuments` is not called, but the job carrying that list is not failed: the
empty-text error is only logged and the job ends `completed`. -/
theorem blank_document_job_completes :
    extractTextFromPDF (.ok [32, 12, 10, 12]) = .ok [] ∧
    runWorker (fun _ => envOk) { cloudinaryUrl := some sampleUrl, pdftext := .pages [] }
      uploadPdfOptions =
      ({ data := { cloudinaryUrl := some sampleUrl, pdftext := .pages [] }, opts := uploadPdfOptions,
         attempt := 0, processed := 1, status := .completed, delays := [] },
       { logs := [.workerError "PDF text is empty or couldn't be parsed", .jobCompleted],
         storeCalls := [] }) :=
  ⟨rfl, rfl⟩

/-- C6: with the options of `uploadPdf` and a `fromDocuments` call that fails at
every delivery, the job is processed once, no delay is recorded, and it ends
`completed` with the failure counter at 0 (not `dead` after 3 deliveries). -/
theorem failing_store_job_runs_once :
    (runWorker (fun _ => envFail) { cloudinaryUrl := some sampleUrl, pdftext := .pages [hello, world] }
      uploadPdfOptions).1 =
      { data := { cloudinaryUrl := some sampleUrl, pdftext := .pages [hello, world] },
        opts := uploadPdfOptions, attempt := 0, processed := 1, status := .completed, delays := [] } := by
  decide

/-- C7: a PDF of 10 MB plus one byte is below the advertised 25 MB, yet
`handleFiles` sets the size-limit error and posts nothing. -/
theorem handleFiles_rejects_below_advertised_max :
    10 * 1024 * 1024 + 1 ≤ advertisedMaxSize ∧
    handleFiles [{ type := "application/pdf", size := 10 * 1024 * 1024 + 1 }] =
      { statuses := [{ state := .idle, message := none, progress := none },
                     { state := .error, message := some "File size exceeds 15MB limit",
                       progress := none }],
        posted := none } := by
  decide

end RgfPdf
